import Mathlib

/-!
Shallow embedding of the reference-resolution and project-loading subsystem
of httprunner (src/httprunner/loader.py), together with proofs about the
claims of its specification.

Modelling conventions:

* Python values (the parsed content of JSON/YAML files, test step blocks,
  api definitions) are embedded as the inductive type `Value`.  Python
  dicts are association lists in insertion order, which matches CPython
  dict semantics (3.7+): iteration in insertion order, assignment to an
  existing key keeps its position, `popitem` removes the most recently
  inserted pair.
* Filesystem paths are lists of components of the absolute path
  (`Path := List String`).  The filesystem itself, the working directory
  and the dynamically imported debugtalk module are packaged in `Env`;
  `Env.files` maps a structured file to its parse result and fixes the
  enumeration order that `os.walk` would produce.
* Exceptions are an explicit error type threaded through `Except`.
  Stateful functions additionally thread `LoaderSt`, the embedding of the
  module-level mutable globals `project_mapping` and `tests_def_mapping`;
  they return `Except Err A × LoaderSt` so that mutations performed before
  an exception is raised survive, exactly as in Python.
* The mutual recursion between `load_teststep` and `load_testcase` is
  unbounded in the source (no cycle guard), so the embedding threads a
  fuel parameter; running out of fuel yields the model-only error
  `Err.fuelExhausted`.  All theorems either quantify over the fuel or use
  a concrete fuel large enough for the input at hand.
-/

namespace Loader

/-- Error conditions of the loader.  `FileNotFound`, `FileFormatError` and
`ApiNotFound` embed the exception classes of httprunner.exceptions;
`typeError` and `keyError` embed the built-in Python exceptions raised on
ill-typed operations (for example `os.path.join` on a non-string, or
`popitem` on an empty dict); `fuelExhausted` is a model artifact standing
for the unbounded recursion of nested testcase references. -/
inductive Err where
  | FileNotFound
  | FileFormatError
  | ApiNotFound
  | typeError
  | keyError
  | fuelExhausted
deriving DecidableEq, Repr

/-- Embedding of Python data values: None, booleans, integers, strings,
lists and dicts (as insertion-ordered association lists). -/
inductive Value where
  | vnone
  | vbool (b : Bool)
  | vint (n : Int)
  | vstr (s : String)
  | vlist (xs : List Value)
  | vdict (es : List (String × Value))
deriving Repr

/-- Hashable Python values, the only ones admissible as dict keys.  The api
definition cache `tests_def_mapping["api"]` is keyed by `api_dict.get("id")`,
which may be None (missing id) or any hashable value; lists and dicts are
unhashable and raise TypeError when used as keys. -/
inductive HKey where
  | hnone
  | hbool (b : Bool)
  | hint (n : Int)
  | hstr (s : String)
deriving DecidableEq, Repr

/-- Conversion of a Python value to a dict key: atoms are hashable, lists
and dicts raise TypeError. -/
def hashableKey : Value → Except Err HKey
  | .vnone => .ok .hnone
  | .vbool b => .ok (.hbool b)
  | .vint n => .ok (.hint n)
  | .vstr s => .ok (.hstr s)
  | .vlist _ => .error .typeError
  | .vdict _ => .error .typeError

/-- Character-level splitter (the Python `str.split` on a one-character
separator), implemented structurally over the character list so that
concrete runs reduce definitionally. -/
def splitOnCharAux (c : Char) : List Char → List Char → List String
  | [], acc => [String.mk acc.reverse]
  | ch :: rest, acc =>
    if ch == c then String.mk acc.reverse :: splitOnCharAux c rest []
    else splitOnCharAux c rest (ch :: acc)

/-- Splits a string on every occurrence of a character. -/
def splitOnChar (c : Char) (s : String) : List String :=
  splitOnCharAux c s.data []

/-- Boolean test that the second character list is a prefix of the first. -/
def listStartsWith : List Char → List Char → Bool
  | _, [] => true
  | [], _ :: _ => false
  | a :: as, b :: bs => a == b && listStartsWith as bs

/-- Python `str.endswith`. -/
def strEndsWith (s t : String) : Bool :=
  listStartsWith s.data.reverse t.data.reverse

/-- Python `str.__contains__` for a single character. -/
def strContainsChar (s : String) (c : Char) : Bool :=
  s.data.contains c

/-- Lowering of an ASCII character, for `str.lower` on file extensions. -/
def chLower (c : Char) : Char :=
  if c.toNat ≥ 65 && c.toNat ≤ 90 then Char.ofNat (c.toNat + 32) else c

/-- Python `str.lower` (ASCII range, which covers file extensions). -/
def strLower (s : String) : String := String.mk (s.data.map chLower)

/-- Whitespace recognizer of `str.strip` (space, tab, newline, carriage
return cover the loader inputs). -/
def chIsWs (c : Char) : Bool :=
  c == ' ' || c == '\t' || c == '\n' || c == '\r'

/-- Python `str.strip`. -/
def pystrip (s : String) : String :=
  String.mk (((s.data.dropWhile chIsWs).reverse.dropWhile chIsWs).reverse)

/-- Python `str.__len__` is zero, that is the string is empty. -/
def strIsEmpty (s : String) : Bool := s.data.isEmpty

/-- Python truthiness of a value, as used by `if not content` in
`_check_format` and `if not testcase` in `load_tests`. -/
def truthy : Value → Bool
  | .vnone => false
  | .vbool b => b
  | .vint n => n != 0
  | .vstr s => !strIsEmpty s
  | .vlist xs => !xs.isEmpty
  | .vdict es => !es.isEmpty

/-- Lookup in an insertion-ordered dict (first matching key; keys of dicts
built by the loader are unique). -/
def dictGet : List (String × Value) → String → Option Value
  | [], _ => none
  | (k, v) :: rest, key => if k = key then some v else dictGet rest key

/-- Assignment `d[k] = v` on an insertion-ordered dict: an existing key
keeps its position, a new key is appended, as in CPython. -/
def dictSet : List (String × Value) → String → Value → List (String × Value)
  | [], k, v => [(k, v)]
  | (k0, v0) :: rest, k, v =>
    if k0 = k then (k, v) :: rest else (k0, v0) :: dictSet rest k v

/-- Python `d.update(e)`: assign every pair of `e` into `d` in order. -/
def dictUpdate (d e : List (String × Value)) : List (String × Value) :=
  e.foldl (fun acc kv => dictSet acc kv.1 kv.2) d

/-- Membership test `k in d` for an HKey-keyed dict. -/
def hdictHasKey (d : List (HKey × Value)) (k : HKey) : Bool :=
  d.any (fun q => q.1 = k)

/-- Lookup in an HKey-keyed dict. -/
def hdictGet : List (HKey × Value) → HKey → Option Value
  | [], _ => none
  | (k, v) :: rest, key => if k = key then some v else hdictGet rest key

/-- Assignment on an HKey-keyed dict, position preserving. -/
def hdictSet : List (HKey × Value) → HKey → Value → List (HKey × Value)
  | [], k, v => [(k, v)]
  | (k0, v0) :: rest, k, v =>
    if k0 = k then (k, v) :: rest else (k0, v0) :: hdictSet rest k v

/-- Python `d.popitem()` on an insertion-ordered dict: removes and returns
the most recently inserted pair; `none` embeds the KeyError raised on an
empty dict. -/
def popitemLast {α β : Type} (es : List (α × β)) : Option ((α × β) × List (α × β)) :=
  match es.getLast? with
  | none => none
  | some e => some (e, es.dropLast)

/-- Absolute filesystem paths as their list of components; `[]` is the
filesystem root. -/
abbrev Path := List String

/-- Lookup in a Path-keyed mapping. -/
def pdictGet {β : Type} : List (Path × β) → Path → Option β
  | [], _ => none
  | (k, v) :: rest, key => if k = key then some v else pdictGet rest key

/-- Assignment in a Path-keyed mapping, position preserving. -/
def pdictSet {β : Type} : List (Path × β) → Path → β → List (Path × β)
  | [], k, v => [(k, v)]
  | (k0, v0) :: rest, k, v =>
    if k0 = k then (k, v) :: rest else (k0, v0) :: pdictSet rest k v

/-- Lookup in a String-keyed mapping. -/
def sdictGet {β : Type} : List (String × β) → String → Option β
  | [], _ => none
  | (k, v) :: rest, key => if k = key then some v else sdictGet rest key

/-- Assignment in a String-keyed mapping, position preserving. -/
def sdictSet {β : Type} : List (String × β) → String → β → List (String × β)
  | [], k, v => [(k, v)]
  | (k0, v0) :: rest, k, v =>
    if k0 = k then (k, v) :: rest else (k0, v0) :: sdictSet rest k v

/-- Splits a relative path string on the separator, for `os.path.join`
with a project working directory on the left (the corner case of an
absolute right operand is not exercised by the loader). -/
def strToPath (s : String) : Path := splitOnChar '/' s

/-- Embedding of `os.path.join(pwd, rel)` for an absolute `pwd` and a
relative `rel`. -/
def joinPath (p : Path) (s : String) : Path := p ++ strToPath s

/-- Joins components with the path separator. -/
def joinWithSlash : List String → String
  | [] => ""
  | [x] => x
  | x :: xs => x ++ "/" ++ joinWithSlash xs

/-- Rendering of a path back to the string form Python would store. -/
def pathStr (p : Path) : String := "/" ++ joinWithSlash p

/-- Boolean path-prefix test: `leadsTo a b` holds when directory `a` is an
ancestor of (or equal to) `b`. -/
def leadsTo : Path → Path → Bool
  | [], _ => true
  | _ :: _, [] => false
  | a :: as, b :: bs => a == b && leadsTo as bs

/-- Name-to-callable mapping of a dynamically loaded module, represented
by the exposed function names (the callables themselves are opaque to the
loader). -/
abbrev FuncMap := List String

/-- The filesystem and external collaborators of the loader, fixed for one
run: parsed content of each structured or tabular file, text lines of each
plain-text file, the set of directories, the process working directory,
and the functions exposed by the debugtalk module.  Modelled from the
spec: the debugtalk extension unit is dynamically imported Python code
that is not part of the analyzed source; only its resulting name-to-
callable mapping matters, held here in `debugtalkFuncs`. -/
structure Env where
  files : List (Path × Value)
  textFiles : List (Path × List String)
  dirs : List Path
  cwd : Path
  debugtalkFuncs : FuncMap

/-- Python `os.path.isfile`. -/
def isfile (env : Env) (p : Path) : Bool :=
  (env.files.map Prod.fst ++ env.textFiles.map Prod.fst).contains p

/-- Python `os.path.isdir`. -/
def isdir (env : Env) (p : Path) : Bool :=
  env.dirs.contains p

/-- Python `os.path.exists`, restricted to regular files and directories. -/
def pathExists (env : Env) (p : Path) : Bool :=
  isfile env p || isdir env p

/-- Lowercased extension of a filename, as `os.path.splitext(...)[1].lower()`
(empty when there is no dot or only a leading dot run). -/
def splitextSuffix (s : String) : String :=
  let parts := splitOnChar '.' s
  match parts with
  | [] => ""
  | [_] => ""
  | _ =>
    if parts.dropLast.all (fun t => t = "") then ""
    else "." ++ strLower (parts.getLast?.getD "")

/-- Extension of the final path component. -/
def pathSuffix (p : Path) : String :=
  splitextSuffix (p.getLast?.getD "")

/-- Embedding of `_check_format`: the parsed content of a testcase file
must be non-empty and be a mapping or a sequence, else FileFormatError. -/
def _check_format (content : Value) : Except Err Unit :=
  if !truthy content then .error .FileFormatError
  else
    match content with
    | .vlist _ => .ok ()
    | .vdict _ => .ok ()
    | _ => .error .FileFormatError

/-- Embedding of `load_file`: FileNotFound when the path is not a file;
json and yaml content is parsed and format-checked; csv content is
returned without check; any other extension degrades to an empty list
with a logged warning. -/
def load_file (env : Env) (p : Path) : Except Err Value :=
  if !isfile env p then .error .FileNotFound
  else
    let suffix := pathSuffix p
    if suffix = ".json" || suffix = ".yaml" || suffix = ".yml" then
      match pdictGet env.files p with
      | some content =>
        match _check_format content with
        | .ok _ => .ok content
        | .error e => .error e
      | none => .error .FileFormatError
    else if suffix = ".csv" then
      match pdictGet env.files p with
      | some content => .ok content
      | none => .ok (.vlist [])
    else
      .ok (.vlist [])

/-- Artifact extension filter of `load_folder_files`: filenames ending in
yml, yaml or json. -/
def hasArtifactExt (p : Path) : Bool :=
  let f := p.getLast?.getD ""
  strEndsWith f ".yml" || strEndsWith f ".yaml" || strEndsWith f ".json"

/-- Embedding of `load_folder_files` for a single root (the list/set
overload of the source distributes over this one and is not needed by the
claims): empty when the root is not a directory, else every artifact file
under it, in the fixed enumeration order of `Env.files` which stands in
for the `os.walk` traversal order; when `recursive` is false only the
immediate children are kept. -/
def load_folder_files (env : Env) (folder : Path) (recursive : Bool) : List Path :=
  if !isdir env folder then []
  else
    (env.files.map Prod.fst ++ env.textFiles.map Prod.fst).filter
      (fun p =>
        leadsTo folder p && decide (folder.length < p.length) &&
        (recursive || p.length == folder.length + 1) &&
        hasArtifactExt p)

/-- Splits a line at the first occurrence of a separator character, as
`line.split(sep, 1)`. -/
def splitFirst (s : String) (c : Char) : String × String :=
  (String.mk (s.data.takeWhile (fun ch => ch != c)),
   String.mk ((s.data.dropWhile (fun ch => ch != c)).drop 1))

/-- Line loop of `load_dot_env_file`: each line is split at the first `=`,
or at the first `:` when no `=` is present; a line with neither separator
raises FileFormatError; both sides are stripped and assigned into the
accumulated mapping. -/
def parse_env_lines : List String → List (String × String) → Except Err (List (String × String))
  | [], acc => .ok acc
  | line :: rest, acc =>
    if strContainsChar line '=' then
      let kv := splitFirst line '='
      parse_env_lines rest (sdictSet acc (pystrip kv.1) (pystrip kv.2))
    else if strContainsChar line ':' then
      let kv := splitFirst line ':'
      parse_env_lines rest (sdictSet acc (pystrip kv.1) (pystrip kv.2))
    else
      .error .FileFormatError

/-- Embedding of `load_dot_env_file`: an absent file yields the empty
mapping; otherwise the line loop runs.  The export of the parsed keys into
the process environment (`utils.set_os_environ`) is an external side
effect outside the model. -/
def load_dot_env_file (env : Env) (p : Path) : Except Err (List (String × String)) :=
  match pdictGet env.textFiles p with
  | none => .ok []
  | some lines => parse_env_lines lines []

/-- Fuel-indexed body of `locate_file`; the fuel is a model artifact
bounding the upward recursion, always instantiated above the length of
the start path so that the zero case is unreachable. -/
def locate_file_aux (env : Env) : Nat → Path → String → Except Err Path
  | 0, _, _ => .error .FileNotFound
  | n + 1, start, name =>
    if isfile env start || isdir env start then
      let dir := if isfile env start then start.dropLast else start
      let fp := dir ++ [name]
      if isfile env fp then .ok fp
      else if dir == env.cwd || dir == ([] : Path) then .error .FileNotFound
      else locate_file_aux env n dir.dropLast name
    else .error .FileNotFound

/-- Embedding of `locate_file`: from a file start in its containing
directory, from a directory start there, else FileNotFound; at each level
the anchor is looked up directly inside the current directory, the search
stops with FileNotFound at the working directory or the filesystem root,
and otherwise recurses one level up. -/
def locate_file (env : Env) (start : Path) (name : String) : Except Err Path :=
  locate_file_aux env (start.length + 1) start name

/-- Embedding of the module-level mutable globals of the loader:
`project_mapping` (fields `pwd`, `functions`, `env_vars`) and
`tests_def_mapping` (fields `api_defs`, `testcases_cache` for the
"testcases" sub-dict, and `extra_defs` for the additional top-level keys
that `load_teststep` stores under resolved testcase paths).  The field
`parsed` is a model-only log recording each file parse performed while
resolving testcase references and loading test files, so that re-parsing
is observable. -/
structure LoaderSt where
  pwd : Path
  functions : FuncMap
  env_vars : List (String × String)
  api_defs : List (HKey × Value)
  testcases_cache : List (HKey × Value)
  extra_defs : List (Path × Value)
  parsed : List Path
deriving Repr

/-- Result of a stateful loader operation: the Except outcome together
with the state as left behind, including mutations performed before an
exception was raised. -/
abbrev StR (α : Type) := Except Err α × LoaderSt

/-- Modelled from the spec: `utils.deepcopy_dict` lives in the utils
module, which is not part of the analyzed source; the spec says the
resolved api definition is deep-copied before attachment.  In this
structural (address-free) model a deep copy is structurally identical to
the original, hence the value itself; the ownership consequences of deep
copying are treated in the addressed value model further below. -/
def deepcopy_dict (v : Value) : Value := v

/-- Embedding of `_get_api_definition`: look the name up in the api
definition cache and return a deep copy of the cached block, raising
ApiNotFound when the key is absent (and TypeError when the name is
unhashable, as Python dict indexing would). -/
def _get_api_definition (api_map : List (HKey × Value)) (name : Value) : Except Err Value :=
  match hashableKey name with
  | .error e => .error e
  | .ok k =>
    match hdictGet api_map k with
    | some block => .ok (deepcopy_dict block)
    | none => .error .ApiNotFound

/-- Body of `load_teststep` with the nested-testcase loader passed as a
parameter (tied to a fuel below).  Exactly one reference form applies, in
source order: an "api" key resolves through the api cache and attaches
the definition under "api_def"; a "func" key is a reserved no-op; a
"testcase" key first tests membership of the raw path in the "testcases"
sub-dict of `tests_def_mapping`, and on a miss joins the path with the
project working directory, loads and assembles the referenced file, then
stores the result under the joined path as a new top-level key of
`tests_def_mapping` (`extra_defs`), not inside the "testcases" sub-dict
that the membership test consults; any other block is a direct definition
returned unchanged.  The dead cache-hit branch reads the raw path back
from the top level of `tests_def_mapping`, which raises KeyError unless
that raw path happens to be stored there. -/
def load_teststep_body (env : Env)
    (loadTc : LoaderSt → Value → StR (Value × List Value))
    (st : LoaderSt) (raw : Value) : StR Value :=
  match raw with
  | .vdict es =>
    match dictGet es "api" with
    | some name =>
      match _get_api_definition st.api_defs name with
      | .ok d => (.ok (.vdict (dictSet es "api_def" d)), st)
      | .error e => (.error e, st)
    | none =>
      match dictGet es "func" with
      | some _ => (.ok (.vdict es), st)
      | none =>
        match dictGet es "testcase" with
        | some tpv =>
          match hashableKey tpv with
          | .error e => (.error e, st)
          | .ok k =>
            if hdictHasKey st.testcases_cache k then
              match k with
              | .hstr s =>
                match pdictGet st.extra_defs (strToPath s) with
                | some tcd => (.ok (.vdict (dictSet es "testcase_def" tcd)), st)
                | none => (.error .keyError, st)
              | _ => (.error .keyError, st)
            else
              match tpv with
              | .vstr tp =>
                let joined := joinPath st.pwd tp
                match load_file env joined with
                | .error e => (.error e, st)
                | .ok content =>
                  let st1 := { st with parsed := st.parsed ++ [joined] }
                  match loadTc st1 content with
                  | (.error e, st2) => (.error e, st2)
                  | (.ok (tcv, _), st2) =>
                    let st3 := { st2 with extra_defs := pdictSet st2.extra_defs joined tcv }
                    (.ok (.vdict (dictSet es "testcase_def" tcv)), st3)
              | _ => (.error .typeError, st)
        | none => (.ok (.vdict es), st)
  | _ => (.error .typeError, st)

/-- Block loop of `load_testcase`, with the step resolver passed as a
parameter.  Each item must be a single-key dict whose value is a dict,
else FileFormatError; `popitem` consumes the pair, so the post-state of
each successfully processed item (returned in the last component) is the
emptied dict.  A "config" value is merged into the accumulated
configuration with overwrite semantics, a "test" value is resolved and
appended, any other key is skipped with a logged warning. -/
def load_testcase_items (step : LoaderSt → Value → StR Value) :
    LoaderSt → List Value → List (String × Value) → List Value → List Value →
    StR (List (String × Value) × List Value × List Value)
  | st, [], config, steps, post => (.ok (config, steps, post), st)
  | st, item :: rest, config, steps, post =>
    match item with
    | .vdict es =>
      if es.length == 1 then
        match popitemLast es with
        | none => (.error .keyError, st)
        | some ((key, block), remaining) =>
          match block with
          | .vdict bes =>
            if key == "config" then
              load_testcase_items step st rest (dictUpdate config bes) steps
                (post ++ [Value.vdict remaining])
            else if key == "test" then
              match step st (.vdict bes) with
              | (.ok r, st2) =>
                load_testcase_items step st2 rest config (steps ++ [r])
                  (post ++ [Value.vdict remaining])
              | (.error e, st2) => (.error e, st2)
            else
              load_testcase_items step st rest config steps
                (post ++ [Value.vdict remaining])
          | _ => (.error .FileFormatError, st)
      else (.error .FileFormatError, st)
    | _ => (.error .FileFormatError, st)

/-- Body of `load_testcase` on the raw file content.  A sequence runs the
block loop; iterating a dict yields its keys, which are strings and so
fail the single-key-dict check at once (an empty dict or empty string
iterates zero times); non-iterable content raises TypeError.  The result
is the assembled dict with the merged "config" and the ordered
"teststeps", paired with the post-state of the consumed raw blocks. -/
def load_testcase_body (step : LoaderSt → Value → StR Value)
    (st : LoaderSt) (raw : Value) : StR (Value × List Value) :=
  match raw with
  | .vlist items =>
    match load_testcase_items step st items [] [] [] with
    | (.ok (config, steps, post), st2) =>
      (.ok (.vdict [("config", .vdict config), ("teststeps", .vlist steps)], post), st2)
    | (.error e, st2) => (.error e, st2)
  | .vdict [] =>
    (.ok (.vdict [("config", .vdict []), ("teststeps", .vlist [])], []), st)
  | .vdict (_ :: _) => (.error .FileFormatError, st)
  | .vstr s =>
    if strIsEmpty s then
      (.ok (.vdict [("config", .vdict []), ("teststeps", .vlist [])], []), st)
    else (.error .FileFormatError, st)
  | _ => (.error .typeError, st)

/-- Embedding of `load_teststep`, tying the mutual recursion with
`load_testcase` through a fuel that decreases at each nested testcase
reference (the source performs this recursion unboundedly). -/
def load_teststep (env : Env) : Nat → LoaderSt → Value → StR Value
  | 0, st, _ => (.error .fuelExhausted, st)
  | n + 1, st, raw =>
    load_teststep_body env
      (fun st2 r => load_testcase_body (load_teststep env n) st2 r) st raw

/-- Embedding of `load_testcase` at a given fuel. -/
def load_testcase (env : Env) (fuel : Nat) (st : LoaderSt) (raw : Value) :
    StR (Value × List Value) :=
  load_testcase_body (load_teststep env fuel) st raw

/-- Iteration of file content as a sequence of items: a list yields its
elements; iterating a dict yields its string keys, on which the
subsequent `popitem` raises AttributeError (an empty dict or empty string
yields nothing); non-iterable content raises TypeError. -/
def iterItems : Value → Except Err (List Value)
  | .vlist xs => .ok xs
  | .vdict [] => .ok []
  | .vdict (_ :: _) => .error .typeError
  | .vstr s => if strIsEmpty s then .ok [] else .error .typeError
  | _ => .error .typeError

/-- Item loop of `load_api_folder`: each api item has its single pair
removed by `popitem`; the value must be a dict, whose "id" field (None
when absent) keys the accumulated api definition mapping; a key already
present is reported as a duplicate warning (collected in the second
component) and then overwritten, last write wins.  The post-state of the
consumed items is returned in the third component. -/
def load_api_items : List Value → List (HKey × Value) → List HKey →
    Except Err (List (HKey × Value) × List HKey × List Value)
  | [], m, w => .ok (m, w, [])
  | item :: rest, m, w =>
    match item with
    | .vdict es =>
      match popitemLast es with
      | none => .error .keyError
      | some ((_, apiDict), remaining) =>
        match apiDict with
        | .vdict aes =>
          match hashableKey ((dictGet aes "id").getD .vnone) with
          | .error e => .error e
          | .ok apiId =>
            let w2 := if hdictHasKey m apiId then w ++ [apiId] else w
            match load_api_items rest (hdictSet m apiId (.vdict aes)) w2 with
            | .error e => .error e
            | .ok (mf, wf, post) => .ok (mf, wf, Value.vdict remaining :: post)
        | _ => .error .typeError
    | _ => .error .typeError

/-- File loop of `load_api_folder` over the discovered folder files (the
source materializes the same traversal in `load_folder_content` first):
each file is parsed and its items accumulated into one shared api
definition mapping. -/
def load_api_folder_files (env : Env) : List Path → List (HKey × Value) → List HKey →
    Except Err (List (HKey × Value) × List HKey × List (Path × List Value))
  | [], m, w => .ok (m, w, [])
  | p :: ps, m, w =>
    match load_file env p with
    | .error e => .error e
    | .ok content =>
      match iterItems content with
      | .error e => .error e
      | .ok items =>
        match load_api_items items m w with
        | .error e => .error e
        | .ok (m2, w2, post) =>
          match load_api_folder_files env ps m2 w2 with
          | .error e => .error e
          | .ok (mf, wf, postf) => .ok (mf, wf, (p, post) :: postf)

/-- Embedding of `load_api_folder`: loads every artifact file under the
api folder and builds the id-keyed api definition mapping, together with
the duplicate-id warnings and the post-state of the consumed items. -/
def load_api_folder (env : Env) (folder : Path) :
    Except Err (List (HKey × Value) × List HKey × List (Path × List Value)) :=
  load_api_folder_files env (load_folder_files env folder true) [] []

/-- Embedding of `load_debugtalk_py`: locate the debugtalk.py anchor and
return its directory as the project working directory together with the
functions of the dynamically imported module; when the anchor is not
found, fall back to the process working directory and no functions.  The
sys.path insertion is an external side effect outside the model. -/
def load_debugtalk_py (env : Env) (start : Path) : Path × FuncMap :=
  match locate_file env start "debugtalk.py" with
  | .ok p => (p.dropLast, env.debugtalkFuncs)
  | .error _ => (env.cwd, [])

/-- Embedding of `load_project_tests`: populate the project mapping with
the working directory and functions, load the .env file (the explicit
path when given, else .env under the working directory), then load the
api folder into the api definition cache. -/
def load_project_tests (env : Env) (test_path : Path) (dot_env_path : Option Path)
    (st : LoaderSt) : StR Unit :=
  let pf := load_debugtalk_py env test_path
  let st1 := { st with pwd := pf.1, functions := pf.2 }
  let dep := dot_env_path.getD (pf.1 ++ [".env"])
  match load_dot_env_file env dep with
  | .error e => (.error e, st1)
  | .ok envv =>
    let st2 := { st1 with env_vars := envv }
    match load_api_folder env (pf.1 ++ ["api"]) with
    | .error e => (.error e, st2)
    | .ok (amap, _, _) => (.ok (), { st2 with api_defs := amap })

/-- Embedding of the `testcase["config"]["path"] = path` assignment in
`load_tests`; the input is always the assembled testcase dict, which has
a "config" dict entry. -/
def setConfigPath (v : Value) (p : Path) : Value :=
  match v with
  | .vdict es =>
    match dictGet es "config" with
    | some (.vdict ces) =>
      .vdict (dictSet es "config" (.vdict (dictSet ces "path" (.vstr (pathStr p)))))
    | _ => v
  | _ => v

/-- Embedding of the local `load_test_file` of `load_tests`: the file is
parsed by `load_file` outside the protected region, so its errors
propagate; the assembly by `load_testcase` and the path annotation are
wrapped in a handler that turns FileFormatError into the empty (falsy)
testcase, returned here as `none`. -/
def load_test_file (env : Env) (fuel : Nat) (st : LoaderSt) (p : Path) :
    StR (Option Value) :=
  match load_file env p with
  | .error e => (.error e, st)
  | .ok raw =>
    let st1 := { st with parsed := st.parsed ++ [p] }
    match load_testcase env fuel st1 raw with
    | (.ok (tc, _), st2) => (.ok (some (setConfigPath tc p)), st2)
    | (.error .FileFormatError, st2) => (.ok none, st2)
    | (.error e, st2) => (.error e, st2)

/-- Directory loop of `load_tests`: assemble each discovered file,
skipping the falsy results of caught assembly failures. -/
def load_tests_files (env : Env) (fuel : Nat) : LoaderSt → List Path → List Value →
    StR (List Value)
  | st, [], acc => (.ok acc, st)
  | st, p :: ps, acc =>
    match load_test_file env fuel st p with
    | (.ok (some tc), st2) =>
      if truthy tc then load_tests_files env fuel st2 ps (acc ++ [tc])
      else load_tests_files env fuel st2 ps acc
    | (.ok none, st2) => load_tests_files env fuel st2 ps acc
    | (.error e, st2) => (.error e, st2)

/-- Embedding of `load_tests`: FileNotFound when the path does not exist;
otherwise the project is loaded, then a directory path has every artifact
file under it assembled and a file path is assembled alone.  The returned
value is the ordered testcases list; the accompanying project mapping of
the source result lives in the returned state. -/
def load_tests (env : Env) (fuel : Nat) (path : Path) (dot_env_path : Option Path)
    (st : LoaderSt) : StR (List Value) :=
  if !pathExists env path then (.error .FileNotFound, st)
  else
    match load_project_tests env path dot_env_path st with
    | (.error e, st1) => (.error e, st1)
    | (.ok _, st1) =>
      if isdir env path then
        load_tests_files env fuel st1 (load_folder_files env path true) []
      else if isfile env path then
        match load_test_file env fuel st1 path with
        | (.ok (some tc), st2) => (.ok (if truthy tc then [tc] else []), st2)
        | (.ok none, st2) => (.ok [], st2)
        | (.error e, st2) => (.error e, st2)
      else (.ok [], st1)

/-- The external template-resolution capability
`parser.parse_data(data, variables, functions)`, consumed opaquely by the
load-test-weighted variant. -/
abbrev ParseCap := Value → Value → FuncMap → Value

/-- Block loop of `load_locust_tests`: every item has its single pair
removed by `popitem`; a "config" value is merged into the configuration;
a "test" value is resolved once by `load_teststep` and the resolved step
appended as many times as the integer "weight" field of the mutated block
says (default 1, non-positive weights yield no copies); other keys are
silently dropped.  The post-state of the consumed items is the last
component. -/
def load_locust_items (env : Env) (fuel : Nat) :
    LoaderSt → List Value → List (String × Value) → List Value → List Value →
    StR (List (String × Value) × List Value × List Value)
  | st, [], config, tests, post => (.ok (config, tests, post), st)
  | st, item :: rest, config, tests, post =>
    match item with
    | .vdict es =>
      match popitemLast es with
      | none => (.error .keyError, st)
      | some ((key, block), remaining) =>
        if key == "config" then
          match block with
          | .vdict bes =>
            load_locust_items env fuel st rest (dictUpdate config bes) tests
              (post ++ [Value.vdict remaining])
          | _ => (.error .typeError, st)
        else if key == "test" then
          match load_teststep env fuel st block with
          | (.error e, st2) => (.error e, st2)
          | (.ok stepv, st2) =>
            match stepv with
            | .vdict ses =>
              match (dictGet ses "weight").getD (.vint 1) with
              | .vint w =>
                load_locust_items env fuel st2 rest config
                  (tests ++ List.replicate w.toNat stepv)
                  (post ++ [Value.vdict remaining])
              | _ => (.error .typeError, st2)
            | _ => (.error .typeError, st2)
        else
          load_locust_items env fuel st rest config tests
            (post ++ [Value.vdict remaining])
    | _ => (.error .typeError, st)

/-- Embedding of `load_locust_tests`: parse the single file, load the
project, run the weighted block loop, then resolve the config variables,
name and request through the external template-resolution capability.
The result pairs the flattened config-and-tests dict with the post-state
of the consumed raw blocks. -/
def load_locust_tests (env : Env) (fuel : Nat) (parseData : ParseCap) (path : Path)
    (dot_env_path : Option Path) (st : LoaderSt) : StR (Value × List Value) :=
  match load_file env path with
  | .error e => (.error e, st)
  | .ok raw =>
    let st1 := { st with parsed := st.parsed ++ [path] }
    match load_project_tests env path dot_env_path st1 with
    | (.error e, st2) => (.error e, st2)
    | (.ok _, st2) =>
      match iterItems raw with
      | .error e => (.error e, st2)
      | .ok items =>
        match load_locust_items env fuel st2 items [] [] [] with
        | (.error e, st3) => (.error e, st3)
        | (.ok (config, tests, post), st3) =>
          let rawVars := (dictGet config "variables").getD (.vlist [])
          let configVars := parseData rawVars (.vdict []) st3.functions
          let config1 := dictSet config "name"
            (parseData ((dictGet config "name").getD (.vstr "")) configVars st3.functions)
          let config2 := dictSet config1 "request"
            (parseData ((dictGet config1 "request").getD (.vdict [])) configVars st3.functions)
          (.ok (.vdict [("config", .vdict config2), ("tests", .vlist tests)], post), st3)

/-!
Addressed value model.  Python values are heap objects: every list and
dict node carries an identity, and `copy.deepcopy` produces a structurally
equal value made of entirely fresh nodes.  `AVal` makes this explicit by
labelling each mutable node with an address; `erase` forgets addresses
(structural equality of Python values), `addrs` collects the node
addresses owned by a value, `adeepcopy` is the deep copy (relabelling
every node with fresh addresses drawn from a counter), and `mutateAt`
performs an in-place mutation of the node with a given address, which is a
no-op on any value that does not own that address. -/

/-- Python values with explicit heap addresses on every mutable node. -/
inductive AVal where
  | anone
  | abool (b : Bool)
  | aint (n : Int)
  | astr (s : String)
  | alist (addr : Nat) (xs : List AVal)
  | adict (addr : Nat) (es : List (String × AVal))
deriving Repr

mutual

/-- Structural content of an addressed value (forgets addresses). -/
def erase : AVal → Value
  | .anone => .vnone
  | .abool b => .vbool b
  | .aint n => .vint n
  | .astr s => .vstr s
  | .alist _ xs => .vlist (eraseList xs)
  | .adict _ es => .vdict (eraseEntries es)

/-- Structural content of a list of addressed values. -/
def eraseList : List AVal → List Value
  | [] => []
  | x :: xs => erase x :: eraseList xs

/-- Structural content of addressed dict entries. -/
def eraseEntries : List (String × AVal) → List (String × Value)
  | [] => []
  | (k, v) :: es => (k, erase v) :: eraseEntries es

end

mutual

/-- Addresses of the heap nodes owned by an addressed value. -/
def addrs : AVal → List Nat
  | .anone => []
  | .abool _ => []
  | .aint _ => []
  | .astr _ => []
  | .alist a xs => a :: addrsList xs
  | .adict a es => a :: addrsEntries es

/-- Addresses owned by a list of addressed values. -/
def addrsList : List AVal → List Nat
  | [] => []
  | x :: xs => addrs x ++ addrsList xs

/-- Addresses owned by addressed dict entries. -/
def addrsEntries : List (String × AVal) → List Nat
  | [] => []
  | (_, v) :: es => addrs v ++ addrsEntries es

end

mutual

/-- Embedding of `copy.deepcopy`: rebuilds the value with entirely fresh
node addresses drawn from the counter, returning the copy and the next
free address. -/
def adeepcopy : AVal → Nat → AVal × Nat
  | .anone, c => (.anone, c)
  | .abool b, c => (.abool b, c)
  | .aint n, c => (.aint n, c)
  | .astr s, c => (.astr s, c)
  | .alist _ xs, c =>
    let r := adeepcopyList xs (c + 1)
    (.alist c r.1, r.2)
  | .adict _ es, c =>
    let r := adeepcopyEntries es (c + 1)
    (.adict c r.1, r.2)

/-- Deep copy of a list of addressed values. -/
def adeepcopyList : List AVal → Nat → List AVal × Nat
  | [], c => ([], c)
  | x :: xs, c =>
    let r := adeepcopy x c
    let r2 := adeepcopyList xs r.2
    (r.1 :: r2.1, r2.2)

/-- Deep copy of addressed dict entries. -/
def adeepcopyEntries : List (String × AVal) → Nat → List (String × AVal) × Nat
  | [], c => ([], c)
  | (k, v) :: es, c =>
    let r := adeepcopy v c
    let r2 := adeepcopyEntries es r.2
    ((k, r.1) :: r2.1, r2.2)

end

mutual

/-- In-place mutation of the heap node with address `a`: the subtree of the
node owning `a` is replaced by `x`.  On a value that does not own `a` this
is the identity, which is exactly the frame property of Python mutation. -/
def mutateAt : AVal → Nat → AVal → AVal
  | .anone, _, _ => .anone
  | .abool b, _, _ => .abool b
  | .aint n, _, _ => .aint n
  | .astr s, _, _ => .astr s
  | .alist ad xs, a, x =>
    if ad = a then x else .alist ad (mutateAtList xs a x)
  | .adict ad es, a, x =>
    if ad = a then x else .adict ad (mutateAtEntries es a x)

/-- Mutation inside a list of addressed values. -/
def mutateAtList : List AVal → Nat → AVal → List AVal
  | [], _, _ => []
  | y :: ys, a, x => mutateAt y a x :: mutateAtList ys a x

/-- Mutation inside addressed dict entries. -/
def mutateAtEntries : List (String × AVal) → Nat → AVal → List (String × AVal)
  | [], _, _ => []
  | (k, v) :: es, a, x => (k, mutateAt v a x) :: mutateAtEntries es a x

end

/-- Generic lookup in an HKey-keyed mapping. -/
def hkeyGet {β : Type} : List (HKey × β) → HKey → Option β
  | [], _ => none
  | (k, v) :: rest, key => if k = key then some v else hkeyGet rest key

/-- Embedding of `_get_api_definition` over the addressed heap model: the
cached block is looked up by name and deep-copied with fresh addresses;
the fresh-address counter is threaded explicitly. -/
def _get_api_definition_heap (api_map : List (HKey × AVal)) (name : Value) (c : Nat) :
    Except Err (AVal × Nat) :=
  match hashableKey name with
  | .error e => .error e
  | .ok k =>
    match hkeyGet api_map k with
    | some block => .ok (adeepcopy block c)
    | none => .error .ApiNotFound

mutual

/-- A deep copy has the same structural content as the original. -/
theorem erase_adeepcopy : ∀ (v : AVal) (c : Nat), erase (adeepcopy v c).1 = erase v
  | .anone, _ => rfl
  | .abool _, _ => rfl
  | .aint _, _ => rfl
  | .astr _, _ => rfl
  | .alist _ xs, c => by
      simp only [adeepcopy, erase]
      exact congrArg Value.vlist (eraseList_adeepcopyList xs (c + 1))
  | .adict _ es, c => by
      simp only [adeepcopy, erase]
      exact congrArg Value.vdict (eraseEntries_adeepcopyEntries es (c + 1))

/-- List version of `erase_adeepcopy`. -/
theorem eraseList_adeepcopyList :
    ∀ (xs : List AVal) (c : Nat), eraseList (adeepcopyList xs c).1 = eraseList xs
  | [], _ => rfl
  | x :: xs, c => by
      simp only [adeepcopyList, eraseList]
      exact congrArg₂ List.cons (erase_adeepcopy x c)
        (eraseList_adeepcopyList xs (adeepcopy x c).2)

/-- Entries version of `erase_adeepcopy`. -/
theorem eraseEntries_adeepcopyEntries :
    ∀ (es : List (String × AVal)) (c : Nat),
      eraseEntries (adeepcopyEntries es c).1 = eraseEntries es
  | [], _ => rfl
  | (k, v) :: es, c => by
      simp only [adeepcopyEntries, eraseEntries]
      exact congrArg₂ List.cons (congrArg (fun w => (k, w)) (erase_adeepcopy v c))
        (eraseEntries_adeepcopyEntries es (adeepcopy v c).2)

end

mutual

/-- The fresh-address counter never decreases under deep copy. -/
theorem adeepcopy_counter_le : ∀ (v : AVal) (c : Nat), c ≤ (adeepcopy v c).2
  | .anone, _ => le_refl _
  | .abool _, _ => le_refl _
  | .aint _, _ => le_refl _
  | .astr _, _ => le_refl _
  | .alist _ xs, c => by
      simp only [adeepcopy]
      exact le_trans (Nat.le_succ c) (adeepcopyList_counter_le xs (c + 1))
  | .adict _ es, c => by
      simp only [adeepcopy]
      exact le_trans (Nat.le_succ c) (adeepcopyEntries_counter_le es (c + 1))

/-- List version of `adeepcopy_counter_le`. -/
theorem adeepcopyList_counter_le : ∀ (xs : List AVal) (c : Nat), c ≤ (adeepcopyList xs c).2
  | [], _ => le_refl _
  | x :: xs, c => by
      simp only [adeepcopyList]
      exact le_trans (adeepcopy_counter_le x c)
        (adeepcopyList_counter_le xs (adeepcopy x c).2)

/-- Entries version of `adeepcopy_counter_le`. -/
theorem adeepcopyEntries_counter_le :
    ∀ (es : List (String × AVal)) (c : Nat), c ≤ (adeepcopyEntries es c).2
  | [], _ => le_refl _
  | (_, v) :: es, c => by
      simp only [adeepcopyEntries]
      exact le_trans (adeepcopy_counter_le v c)
        (adeepcopyEntries_counter_le es (adeepcopy v c).2)

end

mutual

/-- Every address owned by a deep copy is fresh: at least the starting
counter and below the returned counter. -/
theorem addrs_adeepcopy_bounds :
    ∀ (v : AVal) (c a : Nat), a ∈ addrs (adeepcopy v c).1 → c ≤ a ∧ a < (adeepcopy v c).2
  | .anone, _, _ => by simp [adeepcopy, addrs]
  | .abool _, _, _ => by simp [adeepcopy, addrs]
  | .aint _, _, _ => by simp [adeepcopy, addrs]
  | .astr _, _, _ => by simp [adeepcopy, addrs]
  | .alist _ xs, c, a => by
      simp only [adeepcopy, addrs, List.mem_cons]
      intro h
      rcases h with h | h
      · exact ⟨le_of_eq h.symm, by
          rw [h]
          exact lt_of_lt_of_le (Nat.lt_succ_self _) (adeepcopyList_counter_le xs (c + 1))⟩
      · have hb := addrsList_adeepcopyList_bounds xs (c + 1) a h
        exact ⟨le_trans (Nat.le_succ c) hb.1, hb.2⟩
  | .adict _ es, c, a => by
      simp only [adeepcopy, addrs, List.mem_cons]
      intro h
      rcases h with h | h
      · exact ⟨le_of_eq h.symm, by
          rw [h]
          exact lt_of_lt_of_le (Nat.lt_succ_self _) (adeepcopyEntries_counter_le es (c + 1))⟩
      · have hb := addrsEntries_adeepcopyEntries_bounds es (c + 1) a h
        exact ⟨le_trans (Nat.le_succ c) hb.1, hb.2⟩

/-- List version of `addrs_adeepcopy_bounds`. -/
theorem addrsList_adeepcopyList_bounds :
    ∀ (xs : List AVal) (c a : Nat),
      a ∈ addrsList (adeepcopyList xs c).1 → c ≤ a ∧ a < (adeepcopyList xs c).2
  | [], _, _ => by simp [adeepcopyList, addrsList]
  | x :: xs, c, a => by
      simp only [adeepcopyList, addrsList, List.mem_append]
      intro h
      rcases h with h | h
      · have hb := addrs_adeepcopy_bounds x c a h
        exact ⟨hb.1, lt_of_lt_of_le hb.2 (adeepcopyList_counter_le xs (adeepcopy x c).2)⟩
      · have hb := addrsList_adeepcopyList_bounds xs (adeepcopy x c).2 a h
        exact ⟨le_trans (adeepcopy_counter_le x c) hb.1, hb.2⟩

/-- Entries version of `addrs_adeepcopy_bounds`. -/
theorem addrsEntries_adeepcopyEntries_bounds :
    ∀ (es : List (String × AVal)) (c a : Nat),
      a ∈ addrsEntries (adeepcopyEntries es c).1 → c ≤ a ∧ a < (adeepcopyEntries es c).2
  | [], _, _ => by simp [adeepcopyEntries, addrsEntries]
  | (_, v) :: es, c, a => by
      simp only [adeepcopyEntries, addrsEntries, List.mem_append]
      intro h
      rcases h with h | h
      · have hb := addrs_adeepcopy_bounds v c a h
        exact ⟨hb.1, lt_of_lt_of_le hb.2 (adeepcopyEntries_counter_le es (adeepcopy v c).2)⟩
      · have hb := addrsEntries_adeepcopyEntries_bounds es (adeepcopy v c).2 a h
        exact ⟨le_trans (adeepcopy_counter_le v c) hb.1, hb.2⟩

end

mutual

/-- Mutating a heap node that a value does not own leaves the value
unchanged: the frame property of in-place mutation. -/
theorem mutateAt_not_mem :
    ∀ (v : AVal) (a : Nat) (x : AVal), a ∉ addrs v → mutateAt v a x = v
  | .anone, _, _, _ => rfl
  | .abool _, _, _, _ => rfl
  | .aint _, _, _, _ => rfl
  | .astr _, _, _, _ => rfl
  | .alist ad xs, a, x, h => by
      simp only [addrs, List.mem_cons, not_or] at h
      have hne : ¬ ad = a := fun hc => h.1 hc.symm
      simp only [mutateAt, if_neg hne]
      exact congrArg (AVal.alist ad) (mutateAtList_not_mem xs a x h.2)
  | .adict ad es, a, x, h => by
      simp only [addrs, List.mem_cons, not_or] at h
      have hne : ¬ ad = a := fun hc => h.1 hc.symm
      simp only [mutateAt, if_neg hne]
      exact congrArg (AVal.adict ad) (mutateAtEntries_not_mem es a x h.2)

/-- List version of `mutateAt_not_mem`. -/
theorem mutateAtList_not_mem :
    ∀ (ys : List AVal) (a : Nat) (x : AVal), a ∉ addrsList ys → mutateAtList ys a x = ys
  | [], _, _, _ => rfl
  | y :: ys, a, x, h => by
      simp only [addrsList, List.mem_append, not_or] at h
      simp only [mutateAtList]
      exact congrArg₂ List.cons (mutateAt_not_mem y a x h.1) (mutateAtList_not_mem ys a x h.2)

/-- Entries version of `mutateAt_not_mem`. -/
theorem mutateAtEntries_not_mem :
    ∀ (es : List (String × AVal)) (a : Nat) (x : AVal),
      a ∉ addrsEntries es → mutateAtEntries es a x = es
  | [], _, _, _ => rfl
  | (k, v) :: es, a, x, h => by
      simp only [addrsEntries, List.mem_append, not_or] at h
      simp only [mutateAtEntries]
      exact congrArg₂ List.cons (congrArg (fun w => (k, w)) (mutateAt_not_mem v a x h.1))
        (mutateAtEntries_not_mem es a x h.2)

end

/-!
Shared concrete fixtures for the claim theorems. -/

/-- An environment with no files at all. -/
def env0 : Env := ⟨[], [], [], [], []⟩

/-- The loader state as initialized at module import: empty project
mapping, empty api cache, empty "testcases" sub-dict, no extra keys. -/
def stEmpty : LoaderSt := ⟨[], [], [], [], [], [], []⟩

/-!
Claim C6: environment file parsing. -/

/-- A line loop that contains a line with neither separator fails with
FileFormatError, whatever was accumulated before. -/
theorem parse_env_lines_bad :
    ∀ (lines : List String) (acc : List (String × String)),
      (∃ l ∈ lines, strContainsChar l '=' = false ∧ strContainsChar l ':' = false) →
      parse_env_lines lines acc = .error .FileFormatError := by
  intro lines
  induction lines with
  | nil => intro acc h; simp at h
  | cons l ls ih =>
    intro acc h
    rcases h with ⟨b, hb, h1, h2⟩
    rcases List.mem_cons.mp hb with rfl | hbs
    · simp [parse_env_lines, h1, h2]
    · by_cases c1 : strContainsChar l '=' = true
      · simp only [parse_env_lines, if_pos c1]
        exact ih _ ⟨b, hbs, h1, h2⟩
      · by_cases c2 : strContainsChar l ':' = true
        · simp only [parse_env_lines, if_neg c1, if_pos c2]
          exact ih _ ⟨b, hbs, h1, h2⟩
        · simp only [parse_env_lines, if_neg c1, if_neg c2]

/-- C6: parsing an environment file whose lines are `A=1` then `B:2` yields
the mapping A to 1 and B to 2, splitting each line on the first equals
sign, or on the first colon when no equals sign is present; and any line
containing neither separator makes load_dot_env_file fail with
FileFormatError. -/
theorem claim6_dot_env_file_parsing (env : Env) (p : Path) (lines : List String) :
    (pdictGet env.textFiles p = some ["A=1", "B:2"] →
      load_dot_env_file env p = .ok [("A", "1"), ("B", "2")])
    ∧ (pdictGet env.textFiles p = some lines →
      (∃ l ∈ lines, strContainsChar l '=' = false ∧ strContainsChar l ':' = false) →
      load_dot_env_file env p = .error .FileFormatError) := by
  constructor
  · intro h
    simp only [load_dot_env_file, h]
    rfl
  · intro h hbad
    simp only [load_dot_env_file, h]
    exact parse_env_lines_bad lines [] hbad

/-- An environment holding a two-line env file and a one-line file whose
line has neither separator. -/
def envC6 : Env :=
  ⟨[], [(["proj", ".env"], ["A=1", "B:2"]), (["proj", "bad.env"], ["C"])], [], [], []⟩

/-- Witness for C6 at a concrete environment file. -/
theorem claim6_witness :
    load_dot_env_file envC6 ["proj", ".env"] = .ok [("A", "1"), ("B", "2")]
    ∧ load_dot_env_file envC6 ["proj", "bad.env"] = .error .FileFormatError :=
  ⟨(claim6_dot_env_file_parsing envC6 ["proj", ".env"] []).1 rfl,
   (claim6_dot_env_file_parsing envC6 ["proj", "bad.env"] ["C"]).2 rfl
     ⟨"C", by simp, rfl, rfl⟩⟩

/-!
Claim C4: api reference resolution errors. -/

/-- C4: for every step block containing an "api" key whose value is a
hashable name, load_teststep raises ApiNotFound exactly when the name is
absent from the api definition cache; when it is present, the resolution
succeeds and the definition is attached under "api_def" with the state
unchanged. -/
theorem claim4_api_reference_notfound_iff (env : Env) (fuel : Nat) (st : LoaderSt)
    (es : List (String × Value)) (name : Value) (k : HKey)
    (hapi : dictGet es "api" = some name) (hk : hashableKey name = .ok k) :
    ((load_teststep env (fuel + 1) st (.vdict es)).1 = .error .ApiNotFound
      ↔ hdictGet st.api_defs k = none)
    ∧ (∀ blk, hdictGet st.api_defs k = some blk →
        load_teststep env (fuel + 1) st (.vdict es) =
          (.ok (.vdict (dictSet es "api_def" (deepcopy_dict blk))), st)) := by
  have hstep : load_teststep env (fuel + 1) st (.vdict es) =
      load_teststep_body env
        (fun st2 r => load_testcase_body (load_teststep env fuel) st2 r) st (.vdict es) := rfl
  constructor
  · cases hd : hdictGet st.api_defs k with
    | none =>
      constructor
      · intro _; rfl
      · intro _
        rw [hstep]
        simp [load_teststep_body, hapi, _get_api_definition, hk, hd]
    | some blk =>
      constructor
      · intro hres
        rw [hstep] at hres
        simp [load_teststep_body, hapi, _get_api_definition, hk, hd] at hres
      · intro hnone
        simp [hd] at hnone
  · intro blk hd
    rw [hstep]
    simp [load_teststep_body, hapi, _get_api_definition, hk, hd]

/-- A state whose api cache holds one definition under the id "a". -/
def stApi : LoaderSt :=
  ⟨[], [], [], [(.hstr "a", .vdict [("request", .vdict [])])], [], [], []⟩

/-- Witness for C4: a present id resolves with the definition attached, an
absent id raises ApiNotFound. -/
theorem claim4_witness :
    load_teststep env0 1 stApi (.vdict [("api", .vstr "a")]) =
      (.ok (.vdict [("api", .vstr "a"), ("api_def", .vdict [("request", .vdict [])])]), stApi)
    ∧ (load_teststep env0 1 stEmpty (.vdict [("api", .vstr "a")])).1 = .error .ApiNotFound :=
  ⟨(claim4_api_reference_notfound_iff env0 0 stApi [("api", .vstr "a")] (.vstr "a") (.hstr "a")
      rfl rfl).2 _ rfl,
   ((claim4_api_reference_notfound_iff env0 0 stEmpty [("api", .vstr "a")] (.vstr "a") (.hstr "a")
      rfl rfl).1).mpr rfl⟩

/-!
Claim C1: nested testcase memoization.  The lookup consults the
"testcases" sub-dict of tests_def_mapping, but the assembled testcase is
stored under the joined path as a new top-level key, so the sub-dict stays
empty forever and the same referenced file is re-parsed on every
resolution. -/

/-- A project whose working directory holds one referenced testcase file. -/
def envC1 : Env :=
  ⟨[(["proj", "sub.yml"], .vlist [.vdict [("config", .vdict [("name", .vstr "n")])]])],
   [], [["proj"]], ["w"], []⟩

/-- A state whose project working directory is the project root. -/
def stC1 : LoaderSt := ⟨["proj"], [], [], [], [], [], []⟩

/-- A step block referencing the testcase file by relative path. -/
def stepC1 : Value := .vdict [("name", .vstr "s"), ("testcase", .vstr "sub.yml")]

/-- The testcase assembled from the referenced file. -/
def subTc : Value := .vdict [("config", .vdict [("name", .vstr "n")]), ("teststeps", .vlist [])]

/-- C1: resolving the same testcase reference twice does NOT reuse a
memoized result: both resolutions succeed and attach the assembled
testcase, but the referenced file is parsed once per resolution (the
parse log records it twice), because the result is stored under the
joined path as a top-level key of tests_def_mapping while the membership
test consults the never-populated "testcases" sub-dict, which is still
empty after both calls. -/
theorem claim1_testcase_reference_reparsed :
    (load_teststep envC1 2 stC1 stepC1).1 =
      .ok (.vdict [("name", .vstr "s"), ("testcase", .vstr "sub.yml"), ("testcase_def", subTc)])
    ∧ (load_teststep envC1 2 ((load_teststep envC1 2 stC1 stepC1).2) stepC1).1 =
      .ok (.vdict [("name", .vstr "s"), ("testcase", .vstr "sub.yml"), ("testcase_def", subTc)])
    ∧ ((load_teststep envC1 2 ((load_teststep envC1 2 stC1 stepC1).2) stepC1).2).parsed =
      [["proj", "sub.yml"], ["proj", "sub.yml"]]
    ∧ ((load_teststep envC1 2 ((load_teststep envC1 2 stC1 stepC1).2) stepC1).2).testcases_cache = []
    ∧ ((load_teststep envC1 2 ((load_teststep envC1 2 stC1 stepC1).2) stepC1).2).extra_defs =
      [(["proj", "sub.yml"], subTc)] :=
  ⟨rfl, rfl, rfl, rfl, rfl⟩

/-!
Claim C2: error handling of directory-wide loading.  Only a
FileFormatError raised while assembling blocks inside load_testcase is
caught by the per-file handler; a FileFormatError raised by load_file
itself while validating the parsed content propagates and aborts the
whole load. -/

/-- A directory with a file whose content is empty (so that load_file
itself raises FileFormatError) next to a well-formed file. -/
def envC2 : Env :=
  ⟨[(["w", "t", "a.yml"], .vlist []),
    (["w", "t", "b.yml"], .vlist [.vdict [("config", .vdict [("name", .vstr "b")])]])],
   [], [["w"], ["w", "t"]], ["w"], []⟩

/-- Counterexample to C2 as stated: the first discovered file fails format
validation (its parsed content is empty, so load_file raises
FileFormatError), and the whole directory-wide load aborts with that
error instead of skipping the file and assembling the remaining one. -/
theorem claim2_counterexample :
    load_file envC2 ["w", "t", "a.yml"] = .error .FileFormatError
    ∧ (load_tests envC2 3 ["w", "t"] none stEmpty).1 = .error .FileFormatError :=
  ⟨rfl, rfl⟩

/-- A directory with a file whose content parses but fails assembly (its
single block is not a dict) next to a well-formed file. -/
def envC2b : Env :=
  ⟨[(["w", "t", "a.yml"], .vlist [.vstr "x"]),
    (["w", "t", "b.yml"], .vlist [.vdict [("config", .vdict [("name", .vstr "b")])]])],
   [], [["w"], ["w", "t"]], ["w"], []⟩

/-- C2 (amended): a FileFormatError raised while assembling the blocks of
a discovered file (inside load_testcase) is caught: that file is skipped
and the directory loop continues with the remaining files; concretely, a
directory holding one assembly-failing file and one well-formed file
loads successfully with exactly the well-formed testcase.  (As the
counterexample shows, a FileFormatError raised by load_file itself while
validating the file content propagates and aborts the load.) -/
theorem claim2_amended_assembly_failures_skipped :
    (∀ (env : Env) (fuel : Nat) (st : LoaderSt) (p : Path) (raw : Value),
      load_file env p = .ok raw →
      (load_testcase env fuel { st with parsed := st.parsed ++ [p] } raw).1 =
        .error .FileFormatError →
      (load_test_file env fuel st p).1 = .ok none)
    ∧ (∀ (env : Env) (fuel : Nat) (st : LoaderSt) (p : Path) (ps : List Path)
        (acc : List Value) (raw : Value),
      load_file env p = .ok raw →
      (load_testcase env fuel { st with parsed := st.parsed ++ [p] } raw).1 =
        .error .FileFormatError →
      load_tests_files env fuel st (p :: ps) acc =
        load_tests_files env fuel
          (load_testcase env fuel { st with parsed := st.parsed ++ [p] } raw).2 ps acc)
    ∧ (load_tests envC2b 3 ["w", "t"] none stEmpty).1 =
      .ok [.vdict [("config", .vdict [("name", .vstr "b"), ("path", .vstr "/w/t/b.yml")]),
                   ("teststeps", .vlist [])]] := by
  refine ⟨?_, ?_, rfl⟩
  · intro env fuel st p raw hload herr
    simp only [load_test_file, hload]
    cases hres : load_testcase env fuel { st with parsed := st.parsed ++ [p] } raw with
    | mk r st2 =>
      rw [hres] at herr
      simp only at herr
      rw [herr]
  · intro env fuel st p ps acc raw hload herr
    simp only [load_tests_files, load_test_file, hload]
    cases hres : load_testcase env fuel { st with parsed := st.parsed ++ [p] } raw with
    | mk r st2 =>
      rw [hres] at herr
      simp only at herr
      rw [herr]

/-- Witness for the amended C2 at the concrete directory: the
assembly-failing file is skipped by load_test_file. -/
theorem claim2_amended_witness :
    (load_test_file envC2b 3 stEmpty ["w", "t", "a.yml"]).1 = .ok none :=
  claim2_amended_assembly_failures_skipped.1 envC2b 3 stEmpty ["w", "t", "a.yml"]
    (.vlist [.vstr "x"]) rfl rfl

/-!
Claims C7 and C9: the block loop of load_testcase. -/

/-- The dict contents of the "config" blocks of a raw block sequence, in
file order, as the block loop extracts them with popitem. -/
def configBlocks : List Value → List (List (String × Value))
  | [] => []
  | item :: rest =>
    match item with
    | .vdict es =>
      match popitemLast es with
      | some ((key, .vdict bes), _) =>
        if key == "config" then bes :: configBlocks rest else configBlocks rest
      | _ => configBlocks rest
    | _ => configBlocks rest

/-- Popping the single pair of a one-entry dict leaves the empty dict. -/
theorem popitemLast_length_one {α β : Type} {es : List (α × β)} {e : α × β}
    {rem : List (α × β)} (hlen : es.length = 1) (h : popitemLast es = some (e, rem)) :
    rem = [] := by
  obtain ⟨x, hx⟩ := List.length_eq_one.mp hlen
  subst hx
  simp only [popitemLast, List.getLast?_singleton, List.dropLast_single,
    Option.some.injEq, Prod.mk.injEq] at h
  exact h.2.symm

/-- A successful run of the block loop merges exactly the "config" blocks
left to right into the configuration, and leaves every consumed raw block
as an emptied dict. -/
theorem load_testcase_items_ok (step : LoaderSt → Value → StR Value) :
    ∀ (items : List Value) (st : LoaderSt) (config : List (String × Value))
      (steps post : List Value)
      (res : List (String × Value) × List Value × List Value) (st2 : LoaderSt),
      load_testcase_items step st items config steps post = (.ok res, st2) →
      res.1 = (configBlocks items).foldl dictUpdate config
      ∧ res.2.2 = post ++ List.replicate items.length (Value.vdict []) := by
  intro items
  induction items with
  | nil =>
    intro st config steps post res st2 h
    simp only [load_testcase_items, Prod.mk.injEq, Except.ok.injEq] at h
    rw [← h.1]
    simp [configBlocks]
  | cons item rest ih =>
    intro st config steps post res st2 h
    simp only [load_testcase_items] at h
    split at h
    · rename_i es
      split at h
      · rename_i hlen
        split at h
        · simp at h
        · rename_i key block remaining heq
          split at h
          · rename_i bes
            have hrem : remaining = [] :=
              popitemLast_length_one (by simpa using hlen) heq
            subst hrem
            split at h
            · rename_i hkc
              have hres := ih _ _ _ _ _ _ h
              refine ⟨?_, ?_⟩
              · rw [hres.1]
                simp [configBlocks, heq, hkc]
              · rw [hres.2]
                simp [List.replicate_succ]
            · rename_i hkc
              split at h
              · rename_i hkt
                split at h
                · rename_i r st3 heqs
                  have hres := ih _ _ _ _ _ _ h
                  refine ⟨?_, ?_⟩
                  · rw [hres.1]
                    simp [configBlocks, heq, hkc]
                  · rw [hres.2]
                    simp [List.replicate_succ]
                · simp at h
              · rename_i hkt
                have hres := ih _ _ _ _ _ _ h
                refine ⟨?_, ?_⟩
                · rw [hres.1]
                  simp [configBlocks, heq, hkc]
                · rw [hres.2]
                  simp [List.replicate_succ]
          · simp at h
      · simp at h
    · simp at h

/-- C7: for every raw testcase processed in file order, the assembled
configuration is the left-to-right merge of all "config" blocks with
later keys overriding earlier ones; in particular two config blocks
name x then name y with empty variables assemble to the merged config
with name y and the empty variables, the second name overriding the
first. -/
theorem claim7_config_merge_left_to_right :
    (∀ (env : Env) (fuel : Nat) (st : LoaderSt) (items : List Value)
       (res : Value × List Value) (st2 : LoaderSt),
      load_testcase env fuel st (.vlist items) = (.ok res, st2) →
      ∃ steps : List Value,
        res.1 = .vdict [("config", .vdict ((configBlocks items).foldl dictUpdate [])),
                        ("teststeps", .vlist steps)])
    ∧ (∀ (env : Env) (fuel : Nat) (st : LoaderSt),
      (load_testcase env fuel st (.vlist
          [.vdict [("config", .vdict [("name", .vstr "x")])],
           .vdict [("config", .vdict [("name", .vstr "y"), ("variables", .vlist [])])]])).1 =
        .ok (.vdict [("config", .vdict [("name", .vstr "y"), ("variables", .vlist [])]),
                     ("teststeps", .vlist [])],
             [.vdict [], .vdict []])) := by
  constructor
  · intro env fuel st items res st2 h
    simp only [load_testcase, load_testcase_body] at h
    split at h
    · rename_i cfg stps pst st3 heq
      have hc : cfg = (configBlocks items).foldl dictUpdate [] :=
        (load_testcase_items_ok (load_teststep env fuel) items st [] [] []
          (cfg, stps, pst) st3 heq).1
      simp only [Prod.mk.injEq, Except.ok.injEq] at h
      refine ⟨stps, ?_⟩
      rw [← h.1, hc]
    · simp at h
  · intro env fuel st
    rfl

/-- The raw blocks of the concrete C7 example. -/
def itemsC7 : List Value :=
  [.vdict [("config", .vdict [("name", .vstr "x")])],
   .vdict [("config", .vdict [("name", .vstr "y"), ("variables", .vlist [])])]]

/-- Witness for C7 applying the merge theorem at the concrete example. -/
theorem claim7_witness :
    ∃ steps : List Value,
      ((Value.vdict [("config", .vdict [("name", .vstr "y"), ("variables", .vlist [])]),
          ("teststeps", .vlist [])],
        ([.vdict [], .vdict []] : List Value)) : Value × List Value).1 =
        .vdict [("config", .vdict ((configBlocks itemsC7).foldl dictUpdate [])),
                ("teststeps", .vlist steps)] :=
  claim7_config_merge_left_to_right.1 env0 1 stEmpty itemsC7 _ stEmpty rfl

/-- A successful run of the load_locust_tests block loop over single-pair
raw blocks leaves every consumed block as an emptied dict. -/
theorem load_locust_items_post (env : Env) (fuel : Nat) :
    ∀ (items : List Value) (st : LoaderSt) (config : List (String × Value))
      (tests post : List Value)
      (res : List (String × Value) × List Value × List Value) (st2 : LoaderSt),
      (∀ item ∈ items, ∃ e, item = Value.vdict [e]) →
      load_locust_items env fuel st items config tests post = (.ok res, st2) →
      res.2.2 = post ++ List.replicate items.length (Value.vdict []) := by
  intro items
  induction items with
  | nil =>
    intro st config tests post res st2 _ h
    simp only [load_locust_items, Prod.mk.injEq, Except.ok.injEq] at h
    rw [← h.1]
    simp
  | cons item rest ih =>
    intro st config tests post res st2 hsingle h
    obtain ⟨e, he⟩ := hsingle item (List.mem_cons_self item rest)
    subst he
    obtain ⟨k0, b0⟩ := e
    have hrest : ∀ it ∈ rest, ∃ e, it = Value.vdict [e] :=
      fun it hit => hsingle it (List.mem_cons_of_mem _ hit)
    simp only [load_locust_items, popitemLast, List.getLast?_singleton,
      List.dropLast_single] at h
    split at h
    · rename_i hkc
      split at h
      · rename_i bes
        have hres := ih _ _ _ _ _ _ hrest h
        rw [hres]
        simp [List.replicate_succ]
      · simp at h
    · rename_i hkc
      split at h
      · rename_i hkt
        split at h
        · simp at h
        · rename_i stepv st3 heq2
          split at h
          · rename_i ses
            split at h
            · rename_i w hw
              have hres := ih _ _ _ _ _ _ hrest h
              rw [hres]
              simp [List.replicate_succ]
            · simp at h
          · simp at h
      · rename_i hkt
        have hres := ih _ _ _ _ _ _ hrest h
        rw [hres]
        simp [List.replicate_succ]

/-- A successful run of the load_api_folder item loop over single-pair
raw blocks leaves every consumed block as an emptied dict. -/
theorem load_api_items_post :
    ∀ (items : List Value) (m : List (HKey × Value)) (w : List HKey)
      (res : List (HKey × Value) × List HKey × List Value),
      (∀ item ∈ items, ∃ e, item = Value.vdict [e]) →
      load_api_items items m w = .ok res →
      res.2.2 = List.replicate items.length (Value.vdict []) := by
  intro items
  induction items with
  | nil =>
    intro m w res _ h
    simp only [load_api_items, Except.ok.injEq] at h
    rw [← h]
    rfl
  | cons item rest ih =>
    intro m w res hsingle h
    obtain ⟨e, he⟩ := hsingle item (List.mem_cons_self item rest)
    subst he
    obtain ⟨k0, b0⟩ := e
    have hrest : ∀ it ∈ rest, ∃ e, it = Value.vdict [e] :=
      fun it hit => hsingle it (List.mem_cons_of_mem _ hit)
    simp only [load_api_items, popitemLast, List.getLast?_singleton,
      List.dropLast_single] at h
    split at h
    · rename_i aes
      split at h
      · simp at h
      · rename_i apiId hid
        split at h
        · simp at h
        · rename_i mf wf postf heqr
          simp only [Except.ok.injEq] at h
          rw [← h]
          have hres := ih _ _ _ hrest heqr
          simp only at hres
          rw [hres]
          rfl
    · simp at h

/-- C9: the block loops consume their input destructively: popitem removes
the single pair of each processed block, so after a successful assembly
every element of the raw block list is an empty mapping; this holds for
load_testcase, for the loop of load_locust_tests, and for the item loop
of load_api_folder. -/
theorem claim9_popitem_consumes_raw_blocks :
    (∀ (env : Env) (fuel : Nat) (st : LoaderSt) (items : List Value)
       (res : Value × List Value) (st2 : LoaderSt),
      load_testcase env fuel st (.vlist items) = (.ok res, st2) →
      res.2 = List.replicate items.length (Value.vdict []))
    ∧ (∀ (env : Env) (fuel : Nat) (st : LoaderSt) (items : List Value)
        (res : List (String × Value) × List Value × List Value) (st2 : LoaderSt),
      (∀ item ∈ items, ∃ e, item = Value.vdict [e]) →
      load_locust_items env fuel st items [] [] [] = (.ok res, st2) →
      res.2.2 = List.replicate items.length (Value.vdict []))
    ∧ (∀ (items : List Value) (m : List (HKey × Value)) (w : List HKey)
        (res : List (HKey × Value) × List HKey × List Value),
      (∀ item ∈ items, ∃ e, item = Value.vdict [e]) →
      load_api_items items m w = .ok res →
      res.2.2 = List.replicate items.length (Value.vdict [])) := by
  refine ⟨?_, ?_, load_api_items_post⟩
  · intro env fuel st items res st2 h
    simp only [load_testcase, load_testcase_body] at h
    split at h
    · rename_i cfg stps pst st3 heq
      have hp : pst = [] ++ List.replicate items.length (Value.vdict []) :=
        (load_testcase_items_ok (load_teststep env fuel) items st [] [] []
          (cfg, stps, pst) st3 heq).2
      simp only [Prod.mk.injEq, Except.ok.injEq] at h
      rw [← h.1]
      simpa using hp
    · simp at h
  · intro env fuel st items res st2 hs h
    simpa using load_locust_items_post env fuel items st [] [] [] res st2 hs h

/-- Witness for C9, applying all three parts at concrete runs. -/
theorem claim9_witness :
    (([Value.vdict [], Value.vdict []] : List Value) =
      List.replicate itemsC7.length (Value.vdict []))
    ∧ ((([("name", Value.vstr "c")],
        ([] : List Value), ([Value.vdict []] : List Value)) :
          List (String × Value) × List Value × List Value).2.2 =
        List.replicate [Value.vdict [("config", .vdict [("name", .vstr "c")])]].length
          (Value.vdict []))
    ∧ ((([((.hnone : HKey), Value.vdict [("name", .vstr "a")])], ([] : List HKey),
        ([Value.vdict []] : List Value)) :
          List (HKey × Value) × List HKey × List Value).2.2 =
        List.replicate [Value.vdict [("api", .vdict [("name", .vstr "a")])]].length
          (Value.vdict [])) :=
  ⟨claim9_popitem_consumes_raw_blocks.1 env0 1 stEmpty itemsC7 _ stEmpty rfl,
   claim9_popitem_consumes_raw_blocks.2.1 env0 1 stEmpty
     [Value.vdict [("config", .vdict [("name", .vstr "c")])]] _ stEmpty
     (by
       intro item hm
       rw [List.mem_singleton] at hm
       exact ⟨("config", .vdict [("name", .vstr "c")]), hm⟩) rfl,
   claim9_popitem_consumes_raw_blocks.2.2
     [Value.vdict [("api", .vdict [("name", .vstr "a")])]] [] [] _
     (by
       intro item hm
       rw [List.mem_singleton] at hm
       exact ⟨("api", .vdict [("name", .vstr "a")]), hm⟩) rfl⟩

/-!
Claim C8: weighted replication in load_locust_tests. -/

/-- The "test" blocks of a raw block sequence, in file order, as the
locust loop extracts them with popitem. -/
def testBlocks : List Value → List Value
  | [] => []
  | item :: rest =>
    match item with
    | .vdict es =>
      match popitemLast es with
      | some ((key, block), _) =>
        if key == "config" then testBlocks rest
        else if key == "test" then block :: testBlocks rest
        else testBlocks rest
      | none => testBlocks rest
    | _ => testBlocks rest

/-- A successful run of the locust block loop produces, per "test" block
in order, one resolved step replicated as many times as its integer
weight (default 1), all concatenated in original relative order. -/
theorem load_locust_items_tests (env : Env) (fuel : Nat) :
    ∀ (items : List Value) (st : LoaderSt) (config : List (String × Value))
      (tests post : List Value)
      (res : List (String × Value) × List Value × List Value) (st2 : LoaderSt),
      load_locust_items env fuel st items config tests post = (.ok res, st2) →
      ∃ L : List (Int × Value),
        L.length = (testBlocks items).length ∧
        res.2.1 = tests ++ (L.map (fun q => List.replicate q.1.toNat q.2)).flatten ∧
        ∀ q ∈ L, ∃ ses, q.2 = .vdict ses ∧
          (dictGet ses "weight").getD (.vint 1) = .vint q.1 := by
  intro items
  induction items with
  | nil =>
    intro st config tests post res st2 h
    simp only [load_locust_items, Prod.mk.injEq, Except.ok.injEq] at h
    refine ⟨[], by simp [testBlocks], ?_, by simp⟩
    rw [← h.1]
    simp
  | cons item rest ih =>
    intro st config tests post res st2 h
    simp only [load_locust_items] at h
    split at h
    · rename_i es
      split at h
      · simp at h
      · rename_i key block remaining heq
        split at h
        · rename_i hkc
          split at h
          · rename_i bes
            obtain ⟨L, hL1, hL2, hL3⟩ := ih _ _ _ _ _ _ h
            exact ⟨L, by simp [testBlocks, heq, hkc, hL1], hL2, hL3⟩
          · simp at h
        · rename_i hkc
          split at h
          · rename_i hkt
            split at h
            · simp at h
            · rename_i stepv st3 heq2
              split at h
              · rename_i ses
                split at h
                · rename_i w hw
                  obtain ⟨L, hL1, hL2, hL3⟩ := ih _ _ _ _ _ _ h
                  refine ⟨(w, .vdict ses) :: L, ?_, ?_, ?_⟩
                  · simp [testBlocks, heq, hkc, hkt, hL1]
                  · rw [hL2]
                    simp [List.append_assoc]
                  · intro q hq
                    rcases List.mem_cons.mp hq with rfl | hq2
                    · exact ⟨ses, rfl, hw⟩
                    · exact hL3 q hq2
                · simp at h
              · simp at h
          · rename_i hkt
            obtain ⟨L, hL1, hL2, hL3⟩ := ih _ _ _ _ _ _ h
            exact ⟨L, by simp [testBlocks, heq, hkc, hkt, hL1], hL2, hL3⟩
    · simp at h

/-- A test block carrying weight 3. -/
def tbW : Value := .vdict [("name", .vstr "t1"), ("weight", .vint 3)]

/-- A test block with no weight field (default 1). -/
def tbD : Value := .vdict [("name", .vstr "t2")]

/-- A project with one locust testcase file holding a config block, a
weight-3 test block and a default-weight test block. -/
def envC8 : Env :=
  ⟨[(["w", "lt.yml"], .vlist [.vdict [("config", .vdict [("name", .vstr "cn")])],
      .vdict [("test", tbW)], .vdict [("test", tbD)]])],
   [], [["w"]], ["w"], []⟩

/-- C8: in the locust loop each "test" block is resolved once and the
resolved step is replicated according to its integer weight field
(default 1), keeping the original relative order; concretely, running
load_locust_tests on a file with a weight-3 block followed by a
default-weight block yields the first resolved step exactly 3 times
followed by the second step once. -/
theorem claim8_weighted_replication :
    (∀ (env : Env) (fuel : Nat) (items : List Value) (st : LoaderSt)
       (res : List (String × Value) × List Value × List Value) (st2 : LoaderSt),
      load_locust_items env fuel st items [] [] [] = (.ok res, st2) →
      ∃ L : List (Int × Value),
        L.length = (testBlocks items).length ∧
        res.2.1 = (L.map (fun q => List.replicate q.1.toNat q.2)).flatten ∧
        ∀ q ∈ L, ∃ ses, q.2 = .vdict ses ∧
          (dictGet ses "weight").getD (.vint 1) = .vint q.1)
    ∧ ((load_locust_tests envC8 1 (fun d _ _ => d) ["w", "lt.yml"] none stEmpty).1 =
        .ok (.vdict [("config", .vdict [("name", .vstr "cn"), ("request", .vdict [])]),
                     ("tests", .vlist [tbW, tbW, tbW, tbD])],
             [.vdict [], .vdict [], .vdict []])) := by
  refine ⟨?_, rfl⟩
  intro env fuel items st res st2 h
  simpa using load_locust_items_tests env fuel items st [] [] [] res st2 h

/-- Witness for C8 applying the replication theorem to a concrete loop
run with one weight-3 block. -/
theorem claim8_witness :
    ∃ L : List (Int × Value),
      L.length = (testBlocks [Value.vdict [("test", tbW)]]).length ∧
      ((([] : List (String × Value)), ([tbW, tbW, tbW] : List Value),
        ([Value.vdict []] : List Value)) :
          List (String × Value) × List Value × List Value).2.1 =
        (L.map (fun q => List.replicate q.1.toNat q.2)).flatten ∧
      ∀ q ∈ L, ∃ ses, q.2 = .vdict ses ∧
        (dictGet ses "weight").getD (.vint 1) = .vint q.1 :=
  claim8_weighted_replication.1 env0 1 [.vdict [("test", tbW)]] stEmpty _ stEmpty rfl

/-!
Claim C10: api definitions without an id field. -/

/-- An api folder with one file holding two api blocks, both lacking an
"id" field. -/
def envC10 : Env :=
  ⟨[(["proj", "api", "a.yml"],
     .vlist [.vdict [("api", .vdict [("name", .vstr "a")])],
             .vdict [("api", .vdict [("name", .vstr "b")])]])],
   [], [["proj"], ["proj", "api"]], ["w"], []⟩

/-- C10: an api block whose definition lacks an "id" field never makes the
api item loop fail (the definition is cached under the absent-id key,
Python None); concretely, loading a folder with two id-less blocks
succeeds, the second block triggers the duplicate-id warning path and
overwrites the first in the cache, last write wins. -/
theorem claim10_missing_id_cached_under_none :
    (∀ (items : List Value) (m : List (HKey × Value)) (w : List HKey),
      (∀ item ∈ items, ∃ es, item = Value.vdict es ∧
        ∃ k bes rem, popitemLast es = some ((k, Value.vdict bes), rem) ∧
          ∃ hk, hashableKey ((dictGet bes "id").getD .vnone) = .ok hk) →
      ∃ r, load_api_items items m w = .ok r)
    ∧ (load_api_folder envC10 ["proj", "api"] =
        .ok ([(.hnone, .vdict [("name", .vstr "b")])], [.hnone],
             [(["proj", "api", "a.yml"], [.vdict [], .vdict []])])) := by
  refine ⟨?_, rfl⟩
  intro items
  induction items with
  | nil => exact fun m w _ => ⟨_, rfl⟩
  | cons item rest ih =>
    intro m w hsh
    obtain ⟨es, he, k, bes, rem, hpop, hk, hid⟩ := hsh item (List.mem_cons_self item rest)
    subst he
    have hrest := fun it hit => hsh it (List.mem_cons_of_mem _ hit)
    obtain ⟨r, hr⟩ := ih (hdictSet m hk (.vdict bes))
      (if hdictHasKey m hk then w ++ [hk] else w) hrest
    refine ⟨(r.1, r.2.1, Value.vdict rem :: r.2.2), ?_⟩
    simp only [load_api_items, hpop, hid, hr]

/-- Witness for C10 applying the no-failure theorem at the two id-less
blocks. -/
theorem claim10_witness :
    ∃ r, load_api_items
      [Value.vdict [("api", .vdict [("name", .vstr "a")])],
       Value.vdict [("api", .vdict [("name", .vstr "b")])]] [] [] = .ok r :=
  claim10_missing_id_cached_under_none.1
    [Value.vdict [("api", .vdict [("name", .vstr "a")])],
     Value.vdict [("api", .vdict [("name", .vstr "b")])]] [] []
    (by
      intro item hm
      rcases List.mem_cons.mp hm with rfl | hm2
      · exact ⟨[("api", .vdict [("name", .vstr "a")])], rfl,
          "api", [("name", .vstr "a")], [], rfl, .hnone, rfl⟩
      · rw [List.mem_singleton] at hm2
        subst hm2
        exact ⟨[("api", .vdict [("name", .vstr "b")])], rfl,
          "api", [("name", .vstr "b")], [], rfl, .hnone, rfl⟩)

/-!
Claim C3: independent ownership of resolved api definitions. -/

/-- C3: resolving an api reference twice for the same cached id yields two
definitions with the same structural content as the cached block, whose
heap addresses are entirely fresh and mutually disjoint: mutating any
node of one resolved definition changes neither the other resolution nor
the cached original. -/
theorem claim3_api_resolutions_independently_owned
    (cache : List (HKey × AVal)) (name : Value) (k : HKey) (c : Nat) (blk : AVal)
    (hk : hashableKey name = .ok k) (hfound : hkeyGet cache k = some blk)
    (hfresh : ∀ a ∈ addrs blk, a < c) :
    ∃ v1 c1 v2 c2,
      _get_api_definition_heap cache name c = .ok (v1, c1) ∧
      _get_api_definition_heap cache name c1 = .ok (v2, c2) ∧
      erase v1 = erase blk ∧ erase v2 = erase blk ∧
      (∀ a ∈ addrs v1, ∀ x, mutateAt v2 a x = v2 ∧ mutateAt blk a x = blk) ∧
      (∀ a ∈ addrs v2, ∀ x, mutateAt v1 a x = v1 ∧ mutateAt blk a x = blk) := by
  refine ⟨(adeepcopy blk c).1, (adeepcopy blk c).2,
    (adeepcopy blk (adeepcopy blk c).2).1, (adeepcopy blk (adeepcopy blk c).2).2,
    ?_, ?_, erase_adeepcopy blk c, erase_adeepcopy blk _, ?_, ?_⟩
  · simp [_get_api_definition_heap, hk, hfound]
  · simp [_get_api_definition_heap, hk, hfound]
  · intro a ha x
    have hb1 := addrs_adeepcopy_bounds blk c a ha
    constructor
    · apply mutateAt_not_mem
      intro hmem
      have hb2 := addrs_adeepcopy_bounds blk (adeepcopy blk c).2 a hmem
      omega
    · apply mutateAt_not_mem
      intro hmem
      have := hfresh a hmem
      omega
  · intro a ha x
    have hb2 := addrs_adeepcopy_bounds blk (adeepcopy blk c).2 a ha
    have hcle := adeepcopy_counter_le blk c
    constructor
    · apply mutateAt_not_mem
      intro hmem
      have hb1 := addrs_adeepcopy_bounds blk c a hmem
      omega
    · apply mutateAt_not_mem
      intro hmem
      have := hfresh a hmem
      omega

/-- A concrete addressed api cache with one two-node definition. -/
def cacheC3 : List (HKey × AVal) :=
  [(.hstr "api_login", .adict 0 [("request", .adict 1 [("url", .astr "/login")])])]

/-- Witness for C3 at the concrete cache. -/
theorem claim3_witness :
    ∃ v1 c1 v2 c2,
      _get_api_definition_heap cacheC3 (.vstr "api_login") 2 = .ok (v1, c1) ∧
      _get_api_definition_heap cacheC3 (.vstr "api_login") c1 = .ok (v2, c2) ∧
      erase v1 = erase (.adict 0 [("request", .adict 1 [("url", .astr "/login")])]) ∧
      erase v2 = erase (.adict 0 [("request", .adict 1 [("url", .astr "/login")])]) ∧
      (∀ a ∈ addrs v1, ∀ x, mutateAt v2 a x = v2 ∧
        mutateAt (.adict 0 [("request", .adict 1 [("url", .astr "/login")])]) a x =
          .adict 0 [("request", .adict 1 [("url", .astr "/login")])]) ∧
      (∀ a ∈ addrs v2, ∀ x, mutateAt v1 a x = v1 ∧
        mutateAt (.adict 0 [("request", .adict 1 [("url", .astr "/login")])]) a x =
          .adict 0 [("request", .adict 1 [("url", .astr "/login")])]) :=
  claim3_api_resolutions_independently_owned cacheC3 (.vstr "api_login")
    (.hstr "api_login") 2 (.adict 0 [("request", .adict 1 [("url", .astr "/login")])])
    rfl rfl (by
      intro a ha
      simp only [addrs, addrsEntries, addrsList, List.mem_cons, List.append_nil] at ha
      rcases ha with rfl | rfl | h
      · omega
      · omega
      · simp at h)

/-!
Claim C5: the upward anchor search of locate_file. -/

/-- All ancestor directories of a path: its prefixes, from the root up to
the path itself. -/
def prefixes : Path → List Path
  | [] => [[]]
  | x :: xs => [] :: (prefixes xs).map (fun p => x :: p)

/-- The boolean ancestor test is exactly the prefix relation. -/
theorem leadsTo_iff : ∀ (a b : Path), leadsTo a b = true ↔ ∃ t, b = a ++ t := by
  intro a
  induction a with
  | nil =>
    intro b
    simp [leadsTo]
  | cons x xs ih =>
    intro b
    cases b with
    | nil => simp [leadsTo]
    | cons y ys =>
      simp only [leadsTo, Bool.and_eq_true, beq_iff_eq]
      constructor
      · rintro ⟨rfl, h2⟩
        obtain ⟨t, rfl⟩ := (ih ys).mp h2
        exact ⟨t, rfl⟩
      · rintro ⟨t, ht⟩
        simp only [List.cons_append, List.cons.injEq] at ht
        exact ⟨ht.1.symm, (ih ys).mpr ⟨t, ht.2⟩⟩

/-- Membership in `prefixes` is exactly the prefix relation. -/
theorem mem_prefixes : ∀ (l d : Path), d ∈ prefixes l ↔ ∃ t, l = d ++ t := by
  intro l
  induction l with
  | nil =>
    intro d
    simp only [prefixes, List.mem_singleton]
    constructor
    · rintro rfl; exact ⟨[], rfl⟩
    · rintro ⟨t, ht⟩
      rcases List.append_eq_nil.mp ht.symm with ⟨rfl, -⟩
      rfl
  | cons x xs ih =>
    intro d
    cases d with
    | nil =>
      simp only [prefixes, List.mem_cons, List.mem_map, true_or, true_iff]
      exact ⟨x :: xs, rfl⟩
    | cons y ds =>
      simp only [prefixes, List.mem_cons, List.mem_map]
      constructor
      · rintro (h | ⟨p, hp, hyp⟩)
        · simp at h
        · simp only [List.cons.injEq] at hyp
          obtain ⟨t, rfl⟩ := (ih p).mp hp
          obtain ⟨rfl, rfl⟩ := hyp
          exact ⟨t, rfl⟩
      · rintro ⟨t, ht⟩
        simp only [List.cons_append, List.cons.injEq] at ht
        obtain ⟨rfl, h2⟩ := ht
        exact Or.inr ⟨ds, (ih ds).mpr ⟨t, h2⟩, rfl⟩

/-- Dropping the last element of an append with a non-empty right part
drops it from the right part. -/
theorem dropLast_append_ne_nil (l u : Path) (hu : u ≠ []) :
    (l ++ u).dropLast = l ++ u.dropLast := by
  cases u with
  | nil => exact absurd rfl hu
  | cons b bs => rw [List.dropLast_append_cons]

/-- Generic upward-search failure: if a property holds at the start, is
preserved one level up until the working directory or the root is
reached, and everywhere it holds the current path is an anchor-free
directory, then the search fails with FileNotFound. -/
theorem locate_file_aux_notfound (env : Env) (name : String) (P : Path → Prop)
    (hP : ∀ d, P d → isdir env d = true ∧ isfile env d = false ∧
      isfile env (d ++ [name]) = false)
    (hstep : ∀ d, P d → d ≠ env.cwd → d ≠ [] → P d.dropLast) :
    ∀ (n : Nat) (start : Path), start.length < n → P start →
      locate_file_aux env n start name = .error .FileNotFound := by
  intro n
  induction n with
  | zero => exact fun start h _ => absurd h (Nat.not_lt_zero _)
  | succ n ih =>
    intro start hlen hPs
    obtain ⟨hdir, hfile, hanchor⟩ := hP start hPs
    by_cases hcwd : start = env.cwd
    · subst hcwd
      simp [locate_file_aux, hfile, hdir, hanchor]
    · by_cases hnil : start = []
      · subst hnil
        simp only [List.nil_append] at hanchor
        simp [locate_file_aux, hfile, hdir, hanchor]
      · have hlt : start.dropLast.length < n := by
          rw [List.length_dropLast]
          have h0 : start.length ≠ 0 := fun h0 => hnil (List.length_eq_zero.mp h0)
          omega
        have hrec := ih start.dropLast hlt (hstep start hPs hcwd hnil)
        simp [locate_file_aux, hfile, hdir, hanchor, beq_iff_eq, hcwd, hnil, hrec]

/-- C5: locate_file started from a directory directly containing the
anchor file returns the absolute path of that file; started from a
directory all of whose ancestors up to the working directory lack the
anchor, or all of whose ancestors down to the filesystem root lack the
anchor, it fails with FileNotFound; and otherwise it recurses exactly one
directory level up. -/
theorem claim5_locate_file_upward_search (env : Env) (name : String) :
    (∀ start : Path, isdir env start = true → isfile env start = false →
      isfile env (start ++ [name]) = true →
      locate_file env start name = .ok (start ++ [name]))
    ∧ (∀ start : Path, leadsTo env.cwd start = true →
      (∀ d ∈ prefixes start, leadsTo env.cwd d = true →
        isdir env d = true ∧ isfile env d = false ∧
          isfile env (d ++ [name]) = false) →
      locate_file env start name = .error .FileNotFound)
    ∧ (∀ start : Path,
      (∀ d ∈ prefixes start, isdir env d = true ∧ isfile env d = false ∧
        isfile env (d ++ [name]) = false) →
      locate_file env start name = .error .FileNotFound)
    ∧ (∀ start : Path, isdir env start = true → isfile env start = false →
      isfile env (start ++ [name]) = false → start ≠ env.cwd → start ≠ [] →
      locate_file env start name = locate_file env start.dropLast name) := by
  refine ⟨?_, ?_, ?_, ?_⟩
  · intro start hdir hfile hanch
    simp [locate_file, locate_file_aux, hfile, hdir, hanch]
  · intro start hcs hyp
    exact locate_file_aux_notfound env name
      (fun d => d ∈ prefixes start ∧ leadsTo env.cwd d = true)
      (fun d hd => hyp d hd.1 hd.2)
      (fun d hd hdc hdn => by
        obtain ⟨hdp, hdl⟩ := hd
        constructor
        · obtain ⟨t, ht⟩ := (mem_prefixes start d).mp hdp
          refine (mem_prefixes start d.dropLast).mpr ?_
          refine ⟨d.getLast hdn :: t, ?_⟩
          rw [ht]
          conv_lhs => rw [← List.dropLast_append_getLast hdn]
          rw [List.append_assoc]
          rfl
        · obtain ⟨u, hu⟩ := (leadsTo_iff env.cwd d).mp hdl
          have hune : u ≠ [] := by
            intro h0
            rw [h0, List.append_nil] at hu
            exact hdc hu
          refine (leadsTo_iff env.cwd d.dropLast).mpr ⟨u.dropLast, ?_⟩
          rw [hu, dropLast_append_ne_nil env.cwd u hune])
      (start.length + 1) start (Nat.lt_succ_self _)
      ⟨(mem_prefixes start start).mpr ⟨[], (List.append_nil start).symm⟩, hcs⟩
  · intro start hyp
    exact locate_file_aux_notfound env name (fun d => d ∈ prefixes start)
      (fun d hd => hyp d hd)
      (fun d hd hdc hdn => by
        obtain ⟨t, ht⟩ := (mem_prefixes start d).mp hd
        refine (mem_prefixes start d.dropLast).mpr ⟨d.getLast hdn :: t, ?_⟩
        rw [ht]
        conv_lhs => rw [← List.dropLast_append_getLast hdn]
        rw [List.append_assoc]
        rfl)
      (start.length + 1) start (Nat.lt_succ_self _)
      ((mem_prefixes start start).mpr ⟨[], (List.append_nil start).symm⟩)
  · intro start hdir hfile hanch hcwd hnil
    have hlen : start.dropLast.length + 1 = start.length := by
      rw [List.length_dropLast]
      have h0 : start.length ≠ 0 := fun h0 => hnil (List.length_eq_zero.mp h0)
      omega
    show locate_file_aux env (start.length + 1) start name =
      locate_file_aux env (start.dropLast.length + 1) start.dropLast name
    rw [hlen]
    simp [locate_file_aux, hfile, hdir, hanch, hcwd, hnil]

/-- A filesystem for the C5 witness: the working directory is p, the
anchor marker sits directly in p, and p/q is an anchor-free
subdirectory. -/
def envC5 : Env :=
  ⟨[(["p", "marker.yml"], .vdict [("k", .vstr "v")])], [],
   [[], ["p"], ["p", "q"]], ["p"], []⟩

/-- Witness for C5: the anchor is found in the directory holding it, a
search for a missing anchor from the subdirectory fails, and one search
step from the subdirectory recurses to its parent. -/
theorem claim5_witness :
    locate_file envC5 ["p"] "marker.yml" = .ok ["p", "marker.yml"]
    ∧ locate_file envC5 ["p", "q"] "missing.yml" = .error .FileNotFound
    ∧ locate_file envC5 ["p", "q"] "marker.yml" =
        locate_file envC5 ["p"] "marker.yml" :=
  ⟨(claim5_locate_file_upward_search envC5 "marker.yml").1 ["p"] rfl rfl rfl,
   (claim5_locate_file_upward_search envC5 "missing.yml").2.1 ["p", "q"] rfl (by decide),
   (claim5_locate_file_upward_search envC5 "marker.yml").2.2.2 ["p", "q"] rfl rfl rfl
     (by decide) (by decide)⟩

end Loader
